import Mathlib

/-!
# Verification of the LTN core (`ltn/core.py`)

A shallow embedding of the grounding/broadcasting core of the LTN
implementation: `Domain`, `Variable`, `cross_grounding_values` and
`Predicate.forward` from `src/ltn/core.py`, together with proofs that
settle the frozen claims about them.

Modelling conventions:
* A torch tensor is a shape (list of axis sizes) together with a total
  valuation of (row-major) multi-indices; out-of-range index components
  behave like the library's defaults and never occur on the reachable
  call paths we verify.
* The Python attribute `active_doms` is dynamically attached to tensor
  objects by the source; we model it as an `Option` field which is `none`
  on every tensor freshly produced by a torch operation (torch operations
  return new objects that do not inherit Python attributes) and `some`
  only where the source assigns the attribute.
* Fallible code is modelled with `Except PyErr`; a raised Python
  exception is an `Except.error`.
-/

namespace LTNCore

/-- Kinds of Python exceptions the modelled code can raise. -/
inductive PyErr where
  | attributeError
  | valueError
  | typeError
  | indexError
  | runtimeError
deriving DecidableEq, Repr

/-- Shallow model of a torch tensor: a shape, a valuation of
multi-indices (row-major semantics for the reshape operations), and the
dynamically attached Python attribute `active_doms` (`none` when the
attribute is absent on the object). -/
structure Tensor where
  shape : List Nat
  data : List Nat → Int
  activeDoms : Option (List String)

/-- A tensor used as the default of harmless list lookups (never reached
on the verified paths). -/
def dummyTensor : Tensor := ⟨[], fun _ => 0, none⟩

/-- Insert an element at position `k` of a list (clamped at the end, as
with `torch.unsqueeze` whose `dim` is always in range at our call
sites). -/
def insertAt {α : Type} : Nat → α → List α → List α
  | 0, a, l => a :: l
  | _ + 1, a, [] => [a]
  | n + 1, a, x :: l => x :: insertAt n a l

/-- Remove the element at position `k` of a list. -/
def eraseAt {α : Type} : Nat → List α → List α
  | 0, l => l.tail
  | _ + 1, [] => []
  | n + 1, x :: l => x :: eraseAt n l

/-- Python `l.index(a)`, total model: first position of `a` in `l`
(returns `l.length` when absent; the source only calls it on present
elements, where Python would not raise either). -/
def idxOf' {α : Type} [BEq α] : List α → α → Nat
  | [], _ => 0
  | x :: l, a => if x == a then 0 else idxOf' l a + 1

/-- Model of `torch.unsqueeze(t, dim = k)`: insert a size-1 axis at position `k`.
Fresh tensor object, so no `active_doms` attribute. -/
def unsqueeze (t : Tensor) (k : Nat) : Tensor :=
  ⟨insertAt k 1 t.shape, fun idx => t.data (eraseAt k idx), none⟩

/-- Model of `torch.repeat_interleave(t, repeats = r, dim = k)`: every entry along
axis `k` is repeated `r` times consecutively. Fresh tensor object. -/
def repeatInterleave (t : Tensor) (r : Nat) (k : Nat) : Tensor :=
  ⟨t.shape.set k (t.shape.getD k 0 * r),
   fun idx => t.data (idx.set k (idx.getD k 0 / r)), none⟩

/-- Model of `t.permute(perm)`: axis `j` of the output is axis `perm[j]` of the
input, so the input index at axis `d` is the output index at the
position of `d` inside `perm`. Fresh tensor object. -/
def permute (t : Tensor) (perm : List Nat) : Tensor :=
  ⟨perm.map (fun i => t.shape.getD i 0),
   fun idx => t.data ((List.range t.shape.length).map
     (fun d => idx.getD (idxOf' perm d) 0)), none⟩

/-- Row-major linearisation of a multi-index over `shape`. -/
def flattenIdx : List Nat → List Nat → Nat
  | [], _ => 0
  | _ :: ds, idx => idx.headD 0 * ds.prod + flattenIdx ds idx.tail

/-- Inverse of `flattenIdx`: the row-major multi-index over `shape` of a
linear position. -/
def unflattenIdx : List Nat → Nat → List Nat
  | [], _ => []
  | _ :: ds, n => n / ds.prod :: unflattenIdx ds (n % ds.prod)

/-- Model of `torch.reshape(t, (-1, *t.shape[k:]))` as used on line 173-174 of
`core.py`: collapse the leading `k` axes into one (their sizes multiply,
row-major reading). Fresh tensor object, so the reshaped tensor does not
carry the `active_doms` attribute. -/
def flattenLead (t : Tensor) (k : Nat) : Tensor :=
  ⟨(t.shape.take k).prod :: t.shape.drop k,
   fun idx => t.data (unflattenIdx (t.shape.take k) (idx.headD 0) ++ idx.tail),
   none⟩

/-- General `torch.reshape(t, newShape)` (used by `Predicate.forward` on
`dims_0`); raises when the element counts disagree. -/
def torchReshape (t : Tensor) (newShape : List Nat) : Except PyErr Tensor :=
  if newShape.prod = t.shape.prod then
    .ok ⟨newShape,
         fun idx => t.data (unflattenIdx t.shape (flattenIdx newShape idx)),
         none⟩
  else .error .runtimeError

/-- All valid multi-indices of a shape, row-major order. -/
def allIdx : List Nat → List (List Nat)
  | [] => [[]]
  | d :: ds => (List.range d).flatMap (fun i => (allIdx ds).map (fun idx => i :: idx))

/- ------------------------------------------------------------------ -/
/- Domain (core.py lines 25-29)                                        -/
/- ------------------------------------------------------------------ -/

/-- A Python value that can appear as an element of the `shape` argument
of `Domain.__init__`; `pyFloat` stands for a non-integral float literal
such as `1.5` (only its runtime type matters to the modelled check). -/
inductive PyElem where
  | pyInt (n : Int)
  | pyFloat
deriving DecidableEq, Repr

/-- The iterable Python values passed as the `shape` argument of
`Domain.__init__` on the paths the claims quantify over: a tuple or a
list of numbers. -/
inductive PyShapeArg where
  | tup (es : List PyElem)
  | lst (es : List PyElem)
deriving DecidableEq, Repr

/-- The constructed `Domain` object: it stores the two arguments
unchanged. -/
structure PyDomain where
  shape : PyShapeArg
  domain_name : String
deriving DecidableEq, Repr

def PyElem.isInt : PyElem → Bool
  | .pyInt _ => true
  | .pyFloat => false

/-- The condition of the `raise` in `Domain.__init__`, exactly as the
source parses: `(not isinstance(shape, tuple)) and all(isinstance(v,
int) for v in shape)`. For a tuple the first conjunct is `False` and the
whole check short-circuits. -/
def Domain_raise_cond : PyShapeArg → Bool
  | .tup _ => false
  | .lst es => es.all PyElem.isInt

/-- Model of `Domain.__init__(shape, domain_name)`: raises `ValueError` when the
(mis-parenthesised) condition holds, otherwise stores both arguments
unchanged. -/
def Domain_init (shape : PyShapeArg) (name : String) : Except PyErr PyDomain :=
  if Domain_raise_cond shape then .error .valueError else .ok ⟨shape, name⟩

/- ------------------------------------------------------------------ -/
/- Variable (core.py lines 105-122)                                    -/
/- ------------------------------------------------------------------ -/

/-- The `individuals_seq` argument of `Variable.__init__`: either a
tensor used as is (the `torch.FloatTensor` branch) or a sequence of
individuals that `torch.tensor` stacks into one tensor. -/
inductive VarInput where
  | direct (t : Tensor)
  | seq (inds : List Tensor)

/-- Model of `torch.tensor(individuals_seq)` on a sequence of individuals: stacks
them along a new leading axis; a ragged sequence raises. -/
def torchStack (inds : List Tensor) : Except PyErr Tensor :=
  match inds with
  | [] => .ok ⟨[0], fun _ => 0, none⟩
  | i0 :: rest =>
    if rest.all (fun t => t.shape == i0.shape) then
      .ok ⟨inds.length :: i0.shape,
           fun idx => (inds.getD (idx.headD 0) i0).data idx.tail, none⟩
    else .error .valueError

/-- Indexing `grounding[0]`: drop the leading axis, fixing its index at 0; raises
`IndexError` on a 0-d or empty tensor. -/
def tensorGetRow0 (t : Tensor) : Except PyErr Tensor :=
  match t.shape with
  | [] => .error .indexError
  | n :: rest =>
    if n = 0 then .error .indexError
    else .ok ⟨rest, fun idx => t.data (0 :: idx), none⟩

/-- Model of `grounding.view(1, grounding.shape[0])` as applied by
`Variable.__init__` to a rank-1 grounding. -/
def torchViewOneRow (t : Tensor) : Tensor :=
  ⟨[1, t.shape.getD 0 0], fun idx => t.data [idx.getD 1 0], none⟩

/-- Model of `Variable.__init__(variable_name, domain, individuals_seq)`.
`domShape` is `domain.shape` for a well-formed `Domain` (a tuple of
non-negative integers), modelled as a `List Nat`. The source checks the
first individual's shape against the domain, then reshapes rank-1
groundings to `(1, k)`, then rejects names starting with `"diag"`; the
resulting grounding tensor is returned (the `torch.tensor` result is a
fresh object, so it carries no `active_doms` attribute). -/
def Variable_init (name : String) (domShape : List Nat) (vi : VarInput) :
    Except PyErr Tensor :=
  match (match vi with
         | .direct t => Except.ok t
         | .seq inds => torchStack inds) with
  | .error e => .error e
  | .ok g =>
    match tensorGetRow0 g with
    | .error e => .error e
    | .ok g0 =>
      if g0.shape ≠ domShape then .error .valueError
      else
        let g := if g.shape.length == 1 then torchViewOneRow g else g
        if name.startsWith "diag" then .error .valueError
        else .ok g

/-- Returns `true` when `Variable.__init__` succeeds on these arguments. -/
def varOk (name : String) (domShape : List Nat) (vi : VarInput) : Bool :=
  match Variable_init name domShape vi with
  | .ok _ => true
  | .error _ => false

/-- The shape of the grounding built by `Variable.__init__` (junk `[]`
on failure). -/
def varShape (name : String) (domShape : List Nat) (vi : VarInput) : List Nat :=
  match Variable_init name domShape vi with
  | .ok g => g.shape
  | .error _ => []

/-- A scalar individual with value `n`, for concrete evaluations. -/
def scalarT (n : Int) : Tensor := ⟨[], fun _ => n, none⟩

/- ------------------------------------------------------------------ -/
/- cross_grounding_values (core.py lines 130-176)                      -/
/- ------------------------------------------------------------------ -/

/-- Reading `grounding.active_doms`: raises `AttributeError` when the
attribute is absent on the object. -/
def getActiveDoms (g : Tensor) : Except PyErr (List String) :=
  match g.activeDoms with
  | some ds => .ok ds
  | none => .error .attributeError

/-- Model of `get_dim0_of_dom(grounding, dom)` (lines 130-133):
`grounding.size(grounding.active_doms.index(dom))`. Only ever called
with `dom` a member of `grounding.active_doms`, where `index` is
total. -/
def get_dim0_of_dom (g : Tensor) (dom : String) : Except PyErr Nat :=
  match getActiveDoms g with
  | .error e => .error e
  | .ok ds => .ok (g.shape.getD (idxOf' ds dom) 0)

/-- The Python dict `doms_to_dim0` in insertion order. -/
abbrev DomDict := List (String × Nat)

/-- Assignment `d[k] = v` on a Python dict: overwrite in place when the key is
present (keeping its insertion position), append otherwise. -/
def dictInsert (d : DomDict) (k : String) (v : Nat) : DomDict :=
  if d.any (fun p => p.1 == k) then
    d.map (fun p => if p.1 == k then (k, v) else p)
  else d ++ [(k, v)]

/-- Lookup `doms_to_dim0[new_dom]`; `new_dom` is always a key (it comes
from the dict's own key list), where Python's lookup is total. -/
def dictGet (d : DomDict) (k : String) : Nat :=
  match d.find? (fun p => p.1 == k) with
  | some p => p.2
  | none => 0

/-- The inner loop of the scan (lines 155-157): `for dom in
grounding.active_doms: doms_to_dim0[dom] = get_dim0_of_dom(grounding,
dom)`. -/
def scanDomsOf (g : Tensor) : DomDict → List String → Except PyErr DomDict
  | d, [] => .ok d
  | d, dom :: rest =>
    match get_dim0_of_dom g dom with
    | .error e => .error e
    | .ok n => scanDomsOf g (dictInsert d dom n) rest

/-- The outer scan over all groundings (lines 154-157). -/
def scanAll : DomDict → List Tensor → Except PyErr DomDict
  | d, [] => .ok d
  | d, g :: gs =>
    match getActiveDoms g with
    | .error e => .error e
    | .ok ds =>
      match scanDomsOf g d ds with
      | .error e => .error e
      | .ok d1 => scanAll d1 gs

/-- The per-grounding expansion loop (lines 164-168): for every domain
missing from the grounding, unsqueeze a fresh axis at the end of the
present active-domain axes and tile it to the domain's count. -/
def expandLoop (d : DomDict) : List String → Tensor → List String →
    Tensor × List String
  | [], g, dsIn => (g, dsIn)
  | newDom :: rest, g, dsIn =>
    let g1 := unsqueeze g dsIn.length
    let g2 := repeatInterleave g1 (dictGet d newDom) dsIn.length
    expandLoop d rest g2 (dsIn ++ [newDom])

/-- One iteration of the output loop of `cross_grounding_values` (lines
161-175). The source iterates `set(doms).difference(doms_in_grounding)`
whose order is a Python implementation detail; we take the missing
domains in canonical `doms` order (every inserted axis is constant along
itself and the final `permute` orders the axes by name, so the result
does not depend on that order). The attribute assignment
`grounding.active_doms = doms` lands on the tensor returned by
`permute`; when `flatten_dim0` is set, `torch.reshape` then builds a
fresh tensor which does not inherit the attribute. -/
def crossOne (d : DomDict) (doms : List String) (flatten_dim0 : Bool)
    (g : Tensor) : Except PyErr Tensor :=
  match getActiveDoms g with
  | .error e => .error e
  | .ok dsIn =>
    let missing := doms.filter (fun x => !(dsIn.contains x))
    let p := expandLoop d missing g dsIn
    let perm := doms.map (fun dom => idxOf' p.2 dom) ++
      List.range' p.2.length (p.1.shape.length - p.2.length)
    let g2 := permute p.1 perm
    let g3 : Tensor := { g2 with activeDoms := some doms }
    if flatten_dim0 then .ok (flattenLead g3 p.2.length) else .ok g3

/-- The output loop over all groundings (`crossed_groundings.append`,
lines 160-175). -/
def mapExcept {α β : Type} (f : α → Except PyErr β) :
    List α → Except PyErr (List β)
  | [] => .ok []
  | x :: xs =>
    match f x with
    | .error e => .error e
    | .ok y =>
      match mapExcept f xs with
      | .error e => .error e
      | .ok ys => .ok (y :: ys)

/-- Model of `cross_grounding_values(groundings, flatten_dim0)` (lines 136-176):
scan the active domains into `doms_to_dim0`, then broadcast every
grounding over the canonical domain list; returns the crossed
groundings, the domain labels and their dim-0 sizes. -/
def cross_grounding_values (gs : List Tensor) (flatten_dim0 : Bool) :
    Except PyErr (List Tensor × List String × List Nat) :=
  match scanAll [] gs with
  | .error e => .error e
  | .ok d =>
    let doms := d.map Prod.fst
    let dims0 := d.map Prod.snd
    match mapExcept (crossOne d doms flatten_dim0) gs with
    | .error e => .error e
    | .ok outs => .ok (outs, doms, dims0)

/-- Returns `true` when `cross_grounding_values` returns without raising. -/
def crossOk (gs : List Tensor) (b : Bool) : Bool :=
  match cross_grounding_values gs b with
  | .ok _ => true
  | .error _ => false

/-- The crossed groundings (junk `[]` on failure). -/
def crossOuts (gs : List Tensor) (b : Bool) : List Tensor :=
  match cross_grounding_values gs b with
  | .ok r => r.1
  | .error _ => []

/-- The canonical domain list returned by `cross_grounding_values`. -/
def crossDoms (gs : List Tensor) (b : Bool) : List String :=
  match cross_grounding_values gs b with
  | .ok r => r.2.1
  | .error _ => []

/-- The per-domain dim-0 counts returned by `cross_grounding_values`. -/
def crossDims0 (gs : List Tensor) (b : Bool) : List Nat :=
  match cross_grounding_values gs b with
  | .ok r => r.2.2
  | .error _ => []

/-- A grounding of a variable `x` with 2 individuals of shape `()`. -/
def cgA : Tensor := ⟨[2], fun _ => 0, some ["x"]⟩

/-- A grounding binding the same label `x` to 3 individuals. -/
def cgB : Tensor := ⟨[3], fun _ => 0, some ["x"]⟩

/-- A grounding of a variable `x` with 2 individuals of shape `(3,)`. -/
def gx0 : Tensor :=
  ⟨[2, 3], fun idx => 3 * (idx.headD 0 : Int) + (idx.getD 1 0 : Int), some ["x"]⟩

/-- A constant grounding of shape `(2,)` (zero active domains). -/
def c0 : Tensor := ⟨[2], fun idx => 10 + (idx.headD 0 : Int), some []⟩

/-- A grounding of a variable `y` with 3 scalar individuals. -/
def vy0 : Tensor := ⟨[3], fun idx => (idx.headD 0 : Int), some ["y"]⟩

/- ------------------------------------------------------------------ -/
/- Predicate.forward (core.py lines 208-234)                           -/
/- ------------------------------------------------------------------ -/

/-- The `inputs` argument of `Predicate.forward`: a single grounding
tensor, or a Python list of grounding tensors. This is also what the
wrapped model receives as its first argument. -/
inductive PredInput where
  | single (t : Tensor)
  | several (ts : List Tensor)

/-- Evaluating `inputs.shape` (the debug statement on line 224 of
`core.py`): defined on a tensor, but a Python list has no `shape`
attribute, so the access raises `AttributeError`. -/
def pyShapeAttr : PredInput → Except PyErr (List Nat)
  | .single t => .ok t.shape
  | .several _ => .error .attributeError

/-- The tail of `Predicate.forward` after broadcasting (lines 224-234):
evaluate `print(inputs.shape)`, call the wrapped model once with
`inputs` as its single first argument, reshape the output to `dims_0`
when that list is non-empty, and attach the `active_doms` attribute to
the result. -/
def forwardRest (model : PredInput → Tensor) (inputs : PredInput)
    (doms : List String) (dims0 : List Nat) : Except PyErr Tensor :=
  match pyShapeAttr inputs with
  | .error e => .error e
  | .ok _ =>
    let outputs := model inputs
    match (if dims0.isEmpty then Except.ok outputs
           else torchReshape outputs dims0) with
    | .error e => .error e
    | .ok outputs2 => .ok { outputs2 with activeDoms := some doms }

/-- Model of `Predicate.forward(inputs)` (lines 208-234): broadcast the inputs
with `flatten_dim0 = True` (wrapping a lone tensor into a singleton
list and unwrapping the result), then run the model/reshape tail. -/
def Predicate_forward (model : PredInput → Tensor) (inputs : PredInput) :
    Except PyErr Tensor :=
  match inputs with
  | .single t =>
    match cross_grounding_values [t] true with
    | .error e => .error e
    | .ok r => forwardRest model (.single (r.1.headD dummyTensor)) r.2.1 r.2.2
  | .several ts =>
    match cross_grounding_values ts true with
    | .error e => .error e
    | .ok r => forwardRest model (.several r.1) r.2.1 r.2.2

/-- Returns `true` when `Predicate.forward` returns without raising. -/
def forwardOk (model : PredInput → Tensor) (inputs : PredInput) : Bool :=
  match Predicate_forward model inputs with
  | .ok _ => true
  | .error _ => false

/- ------------------------------------------------------------------ -/
/- Predicate.Lambda and Predicate.MLP (core.py lines 236-253)          -/
/- ------------------------------------------------------------------ -/

/-- One registered module of the `nn.Sequential` stack built by
`Predicate.MLP`. The weights of an `nn.Linear` are runtime-initialised
and not modelled; the architecture (which modules, in which order, with
which dimensions) is. -/
inductive Layer where
  | linear (inDim outDim : Nat)
  | elu
  | sigmoid
deriving DecidableEq, Repr

/-- The wrapped model stored by an ltn `Predicate`: the `LambdaModel`
wrapping of a raw function, or the `nn.Sequential` stack of
`Predicate.MLP`. -/
inductive LtnModel where
  | lambdaModel (fn : PredInput → Tensor)
  | sequential (layers : List Layer)

/-- Whether the wrapped model registers trainable parameters:
`nn.Linear` modules do; a `LambdaModel` wraps a bare function and
registers none. -/
def LtnModel.hasTrainableParams : LtnModel → Bool
  | .lambdaModel _ => false
  | .sequential ls => ls.any (fun l =>
      match l with
      | .linear _ _ => true
      | _ => false)

/-- An ltn `Predicate` object holding its wrapped model. -/
structure PredicateObj where
  model : LtnModel

/-- Modelled from the spec: the class `LambdaModel` is referenced by
`Predicate.Lambda` (core.py line 240) but defined nowhere in the source
tree; per the spec it "wraps an arbitrary elementwise lambda
(non-trainable)" — a model whose forward applies the wrapped function
and that registers no parameters. -/
def LambdaModel (fn : PredInput → Tensor) : LtnModel := .lambdaModel fn

/-- Model of `Predicate.Lambda(lambda_operator)` (lines 236-241): wraps the
lambda in a `LambdaModel` and builds the predicate from it. -/
def Predicate_Lambda (fn : PredInput → Tensor) : PredicateObj :=
  ⟨LambdaModel fn⟩

/-- The body of the loop of `Predicate.MLP` at index `i`: append
`nn.Linear(layer_dims[i-1], layer_dims[i])`, then `nn.ELU()` unless `i`
is the last index, where `nn.Sigmoid()` is appended instead. -/
def mlpBody (dims : List Nat) (i : Nat) : List Layer :=
  Layer.linear (dims.getD (i - 1) 0) (dims.getD i 0) ::
    (if i ≠ dims.length - 1 then [Layer.elu] else [Layer.sigmoid])

/-- The layer list built by `Predicate.MLP` (lines 244-252): the loop
`for i in range(1, len(layer_dims))` accumulating `mlpBody`. -/
def Predicate_MLP_layers (layer_dims : List Nat) : List Layer :=
  (List.range' 1 (layer_dims.length - 1)).flatMap (mlpBody layer_dims)

/-- Model of `Predicate.MLP(layer_dims)` (lines 243-253). -/
def Predicate_MLP (layer_dims : List Nat) : PredicateObj :=
  ⟨.sequential (Predicate_MLP_layers layer_dims)⟩

/-- The claim's description of the same architecture, as its own
definition: one `Linear` per consecutive pair of layer widths, an `ELU`
after every hidden `Linear` and a `Sigmoid` after the last one. -/
def mlpSpecAux : Nat → List Nat → List Layer
  | _, [] => []
  | a, [b] => [Layer.linear a b, Layer.sigmoid]
  | a, b :: c :: rest => Layer.linear a b :: Layer.elu :: mlpSpecAux b (c :: rest)

/-- Spec-side layer list over the whole `layer_dims`. -/
def mlpSpecLayers : List Nat → List Layer
  | [] => []
  | a :: rest => mlpSpecAux a rest

/- ------------------------------------------------------------------ -/
/- Frame behaviour of cross_grounding_values (object identities)       -/
/- ------------------------------------------------------------------ -/

/-- A tensor paired with the identity of the Python object holding it,
for the frame/no-mutation property: torch operations return fresh
objects, modelled by drawing ids from a monotone allocation counter. -/
structure PTensor where
  oid : Nat
  val : Tensor

/-- Allocation-instrumented expansion loop: same operations as
`expandLoop`, with `unsqueeze` and `repeat_interleave` each allocating
a fresh object. -/
def expandLoopA (d : DomDict) :
    List String → PTensor → List String → Nat → PTensor × List String × Nat
  | [], g, dsIn, c => (g, dsIn, c)
  | newDom :: rest, g, dsIn, c =>
    let g1 : PTensor := ⟨c, unsqueeze g.val dsIn.length⟩
    let g2 : PTensor :=
      ⟨c + 1, repeatInterleave g1.val (dictGet d newDom) dsIn.length⟩
    expandLoopA d rest g2 (dsIn ++ [newDom]) (c + 2)

/-- Allocation-instrumented `crossOne`: besides the crossed tensor and
the next counter it returns the ids of the objects written in place.
The single in-place write performed by `cross_grounding_values` is the
attribute assignment `grounding.active_doms = doms` (line 171), which
hits the object just returned by `permute`; everything else builds
fresh objects. -/
def crossOneA (d : DomDict) (doms : List String) (flatten_dim0 : Bool)
    (g : PTensor) (c : Nat) : Except PyErr (PTensor × List Nat × Nat) :=
  match getActiveDoms g.val with
  | .error e => .error e
  | .ok dsIn =>
    let missing := doms.filter (fun x => !(dsIn.contains x))
    let p := expandLoopA d missing g dsIn c
    let c1 := p.2.2
    let perm := doms.map (fun dom => idxOf' p.2.1 dom) ++
      List.range' p.2.1.length (p.1.val.shape.length - p.2.1.length)
    let g2 : PTensor := ⟨c1, permute p.1.val perm⟩
    let g3 : PTensor := ⟨g2.oid, { g2.val with activeDoms := some doms }⟩
    if flatten_dim0 then
      .ok (⟨c1 + 1, flattenLead g3.val p.2.1.length⟩, [g2.oid], c1 + 2)
    else .ok (g3, [g2.oid], c1 + 1)

/-- Instrumented output loop over all groundings, accumulating outputs
and write logs. -/
def crossAllA (d : DomDict) (doms : List String) (flatten_dim0 : Bool) :
    List PTensor → Nat → Except PyErr (List PTensor × List Nat × Nat)
  | [], c => .ok ([], [], c)
  | g :: gs, c =>
    match crossOneA d doms flatten_dim0 g c with
    | .error e => .error e
    | .ok r =>
      match crossAllA d doms flatten_dim0 gs r.2.2 with
      | .error e => .error e
      | .ok r2 => .ok (r.1 :: r2.1, r.2.1 ++ r2.2.1, r2.2.2)

/-- Allocation-instrumented `cross_grounding_values`. The scan (lines
154-157) only reads attributes and allocates nothing. -/
def cross_grounding_valuesA (gs : List PTensor) (flatten_dim0 : Bool)
    (c : Nat) :
    Except PyErr ((List PTensor × List String × List Nat) × List Nat × Nat) :=
  match scanAll [] (gs.map PTensor.val) with
  | .error e => .error e
  | .ok d =>
    let doms := d.map Prod.fst
    let dims0 := d.map Prod.snd
    match crossAllA d doms flatten_dim0 gs c with
    | .error e => .error e
    | .ok r => .ok ((r.1, doms, dims0), r.2.1, r.2.2)

/-- Ids of the objects the instrumented run writes in place (empty on
failure). -/
def crossAWrites (gs : List PTensor) (b : Bool) (c : Nat) : List Nat :=
  match cross_grounding_valuesA gs b c with
  | .ok r => r.2.1
  | .error _ => []

/-- Ids of the returned tensor objects (empty on failure). -/
def crossAOutIds (gs : List PTensor) (b : Bool) (c : Nat) : List Nat :=
  match cross_grounding_valuesA gs b c with
  | .ok r => r.1.1.map PTensor.oid
  | .error _ => []

/-- A concrete input object for the frame property, holding `gx0` with
object id 0. -/
def p0 : PTensor := ⟨0, gx0⟩

end LTNCore

namespace LTNCore

/-- C6: for every tuple argument — including tuples of non-integers and
of negative integers — the guard `not isinstance(shape, tuple)` is
`False` and short-circuits the conjunction, so `Domain.__init__` raises
nothing and stores the shape unchanged. -/
theorem Domain_init_accepts_every_tuple (es : List PyElem) (name : String) :
    Domain_init (.tup es) name = .ok ⟨.tup es, name⟩ := rfl

/-- C7: constructing a `Variable` over a scalar domain (`shape = ()`)
from the two individuals `5` and `7` succeeds but yields a grounding of
shape `(1, 2)`: axis 0 has size 1 and does not enumerate the two
individuals. -/
theorem Variable_scalar_seq_wrong_axis0 :
    varOk "x" [] (.seq [scalarT 5, scalarT 7]) = true ∧
    varShape "x" [] (.seq [scalarT 5, scalarT 7]) = [1, 2] := by
  constructor <;> rfl

/-- Mapping `fun i => l.getD i d` over `[k, ..., l.length)` recovers
`l.drop k`. -/
theorem range'_map_getD {α : Type} (l : List α) (d : α) :
    ∀ (m k : Nat), k + m = l.length →
      (List.range' k m).map (fun i => l.getD i d) = l.drop k := by
  intro m
  induction m with
  | zero =>
    intro k hk
    have hk' : k = l.length := by omega
    subst hk'
    simp [List.range']
  | succ m ih =>
    intro k hk
    rw [List.range'_succ k m 1, List.map_cons, ih (k + 1) (by omega)]
    have hk' : k < l.length := by omega
    rw [List.getD_eq_getElem l d hk']
    exact (List.drop_eq_getElem_cons hk').symm

/-- Position of `d` inside the contiguous range `[s, s + m)`. -/
theorem idxOf'_range' :
    ∀ (m s d : Nat), s ≤ d → d < s + m →
      idxOf' (List.range' s m) d = d - s := by
  intro m
  induction m with
  | zero => intro s d h1 h2; omega
  | succ m ih =>
    intro s d h1 h2
    rw [List.range'_succ s m 1]
    rcases Nat.eq_or_lt_of_le h1 with h | h
    · subst h
      simp [idxOf']
    · have hne : (s == d) = false := by simp; omega
      simp only [idxOf', hne, Bool.false_eq_true, if_false]
      rw [ih (s + 1) d (by omega) (by omega)]
      omega

/-- Every member of `allIdx ds` is a multi-index of full rank. -/
theorem allIdx_length :
    ∀ (ds : List Nat) (idx : List Nat), idx ∈ allIdx ds →
      idx.length = ds.length := by
  intro ds
  induction ds with
  | nil =>
    intro idx h
    simp [allIdx] at h
    simp [h]
  | cons d ds ih =>
    intro idx h
    simp [allIdx] at h
    obtain ⟨i, _, idx', hmem, rfl⟩ := h
    simp [ih idx' hmem]

/-- C2 (counterexample): two groundings bind the label `x` to 2 and to 3
individuals — `cross_grounding_values` raises nothing and produces a
result, with the last-seen count in `dims0`; no `DomainConflictError`
exists anywhere in the source. -/
theorem cross_conflict_produces_result_cex :
    crossOk [cgA, cgB] false = true ∧ crossDims0 [cgA, cgB] false = [3] := by
  constructor <;> rfl

/-- C3 (counterexample): on a well-formed variable grounding with
`flatten_dim0 = True`, the call succeeds but the returned tensor does
not carry the `active_doms` attribute: `torch.reshape` built a fresh
object after the attribute was assigned. -/
theorem cross_flatten_drops_attribute_cex :
    crossOk [gx0] true = true ∧
    (crossOuts [gx0] true).map Tensor.activeDoms = [none] := by
  constructor <;> rfl

/-- C4: passing the same variable grounding twice in one call collapses
the repeated label: the call succeeds (no conflict error for an
identical (label, count) pair), the canonical domain list holds the
label once, its count is `n`, and each of the two outputs keeps exactly
one axis of size `n` for the label — not two axes of total size
`n * n`. -/
theorem cross_repeated_variable_single_axis (g : Tensor) (lab : String)
    (n : Nat) (vs : List Nat)
    (hA : g.activeDoms = some [lab]) (hS : g.shape = n :: vs) :
    crossOk [g, g] false = true ∧ crossDoms [g, g] false = [lab] ∧
    crossDims0 [g, g] false = [n] ∧
    (crossOuts [g, g] false).map Tensor.shape = [n :: vs, n :: vs] := by
  obtain ⟨sh, f, ad⟩ := g
  simp only [Tensor.activeDoms] at hA
  simp only [Tensor.shape] at hS
  subst hA hS
  simp [crossOk, crossDoms, crossDims0, crossOuts, cross_grounding_values,
    scanAll, scanDomsOf, get_dim0_of_dom, getActiveDoms, idxOf', dictInsert,
    mapExcept, crossOne, expandLoop, permute]
  simp only [← List.getD_eq_getElem?_getD]
  rw [range'_map_getD (n :: vs) 0 vs.length 1 (by rw [List.length_cons]; omega)]
  simp

/-- Witness for C4 at a concrete grounding: label `x`, 2 individuals. -/
theorem cross_repeated_variable_single_axis_witness :
    crossOk [cgA, cgA] false = true ∧ crossDoms [cgA, cgA] false = ["x"] ∧
    crossDims0 [cgA, cgA] false = [2] ∧
    (crossOuts [cgA, cgA] false).map Tensor.shape = [[2], [2]] :=
  cross_repeated_variable_single_axis cgA "x" 2 [] rfl rfl

/-- C2 (amended): when two groundings bind the same label to counts `n`
and `m`, `cross_grounding_values` raises nothing; the scan's dict
overwrite keeps the last-seen count `m` and a result is produced. -/
theorem cross_conflicting_counts_no_error (g1 g2 : Tensor) (lab : String)
    (n m : Nat) (a b : List Nat)
    (h1 : g1.activeDoms = some [lab]) (h2 : g2.activeDoms = some [lab])
    (hs1 : g1.shape = n :: a) (hs2 : g2.shape = m :: b) :
    crossOk [g1, g2] false = true ∧ crossDoms [g1, g2] false = [lab] ∧
    crossDims0 [g1, g2] false = [m] := by
  obtain ⟨s1, f1, d1⟩ := g1
  obtain ⟨s2, f2, d2⟩ := g2
  simp only [Tensor.activeDoms, Tensor.shape] at h1 h2 hs1 hs2
  subst h1 h2 hs1 hs2
  simp [crossOk, crossDoms, crossDims0, cross_grounding_values,
    scanAll, scanDomsOf, get_dim0_of_dom, getActiveDoms, idxOf', dictInsert,
    mapExcept, crossOne, expandLoop, permute]

/-- Witness for C2's amended statement: counts 2 and 3 under label `x`,
the call succeeds and records the last-seen count 3. -/
theorem cross_conflicting_counts_no_error_witness :
    crossOk [cgA, cgB] false = true ∧ crossDoms [cgA, cgB] false = ["x"] ∧
    crossDims0 [cgA, cgB] false = [3] :=
  cross_conflicting_counts_no_error cgA cgB "x" 2 3 [] [] rfl rfl rfl rfl

/-- Any tensor produced by `crossOne` with `flatten_dim0 = true` went
through `torch.reshape` last, so it carries no `active_doms`
attribute. -/
theorem crossOne_flatten_no_attribute (d : DomDict) (doms : List String)
    (g t : Tensor) (h : crossOne d doms true g = .ok t) :
    t.activeDoms = none := by
  unfold crossOne at h
  cases hg : getActiveDoms g with
  | error e => rw [hg] at h; exact absurd h (by simp)
  | ok dsIn =>
    rw [hg] at h
    simp only [if_true, Except.ok.injEq] at h
    rw [← h]
    rfl

/-- If `f` only returns values satisfying `P`, every member of a
successful `mapExcept f` run satisfies `P`. -/
theorem mapExcept_ok_mem {α β : Type} (f : α → Except PyErr β) (P : β → Prop)
    (hf : ∀ x y, f x = .ok y → P y) :
    ∀ (l : List α) (out : List β), mapExcept f l = .ok out →
      ∀ y ∈ out, P y := by
  intro l
  induction l with
  | nil =>
    intro out h y hy
    simp only [mapExcept, Except.ok.injEq] at h
    subst h
    simp at hy
  | cons x xs ih =>
    intro out h y hy
    unfold mapExcept at h
    cases hx : f x with
    | error e => rw [hx] at h; exact absurd h (by simp)
    | ok y0 =>
      rw [hx] at h
      cases hxs : mapExcept f xs with
      | error e => rw [hxs] at h; exact absurd h (by simp)
      | ok ys =>
        rw [hxs] at h
        simp only [Except.ok.injEq] at h
        subst h
        rcases List.mem_cons.mp hy with rfl | hmem
        · exact hf x y hx
        · exact ih ys hxs y hmem

/-- C3 (amended): whenever `cross_grounding_values` succeeds with
`flatten_dim0 = True`, none of the returned tensors carries the
`active_doms` attribute — the attribute is assigned before the final
`torch.reshape`, whose fresh result does not inherit it; the canonical
domain list is only available through the second component of the
returned triple. -/
theorem cross_flatten_outputs_lack_attribute (gs : List Tensor)
    (h : crossOk gs true = true) :
    (crossOuts gs true).all (fun o => o.activeDoms.isNone) = true := by
  unfold crossOk at h
  cases hc : cross_grounding_values gs true with
  | error e => rw [hc] at h; simp at h
  | ok r =>
    unfold crossOuts
    rw [hc]
    unfold cross_grounding_values at hc
    cases hs : scanAll [] gs with
    | error e => rw [hs] at hc; exact absurd hc (by simp)
    | ok d =>
      rw [hs] at hc
      simp only at hc
      cases hm : mapExcept (crossOne d (d.map Prod.fst) true) gs with
      | error e => rw [hm] at hc; exact absurd hc (by simp)
      | ok outs =>
        rw [hm] at hc
        simp only [Except.ok.injEq] at hc
        rw [← hc]
        rw [List.all_eq_true]
        intro o ho
        have hnone :=
          mapExcept_ok_mem (crossOne d (d.map Prod.fst) true)
            (fun t => t.activeDoms = none)
            (fun x y hxy => crossOne_flatten_no_attribute d _ x y hxy)
            gs outs hm o ho
        simp [hnone]

/-- Witness for C3's amended statement at a concrete grounding. -/
theorem cross_flatten_outputs_lack_attribute_witness :
    (crossOuts [gx0] true).all (fun o => o.activeDoms.isNone) = true :=
  cross_flatten_outputs_lack_attribute [gx0] rfl

/-- The identity permutation `[0] ++ [1, ..., m]` finds every axis at
its own position. -/
theorem idxOf'_zero_cons_range' (m dd : Nat) (h : dd < m + 1) :
    idxOf' (0 :: List.range' 1 m) dd = dd := by
  cases dd with
  | zero => simp [idxOf']
  | succ k =>
    have h0 : ((0 : Nat) == k + 1) = false := by simp
    simp only [idxOf', h0, Bool.false_eq_true, if_false]
    rw [idxOf'_range' m 1 (k + 1) (by omega) (by omega)]
    omega

/-- C5: broadcasting a Constant grounding (zero active domains) together
with a Variable grounding of `n` individuals succeeds, tiles the
constant to shape `(n, *constant_shape)`, and each of the `n` rows of
the tiled output equals the constant's value entrywise. -/
theorem cross_constant_variable_tiles (c v : Tensor) (lab : String)
    (n : Nat) (ds : List Nat)
    (hc : c.activeDoms = some []) (hv : v.activeDoms = some [lab])
    (hvs : v.shape = n :: ds) :
    crossOk [c, v] false = true ∧
    (crossOuts [c, v] false).map Tensor.shape = [n :: c.shape, n :: ds] ∧
    (List.range n).all (fun j =>
      (allIdx c.shape).all (fun idx =>
        ((crossOuts [c, v] false).headD dummyTensor).data (j :: idx) ==
          c.data idx)) = true := by
  obtain ⟨cs, fc, adc⟩ := c
  obtain ⟨vsh, fv, adv⟩ := v
  simp only [Tensor.activeDoms, Tensor.shape] at hc hv hvs
  subst hc hv hvs
  refine ⟨?_, ?_, ?_⟩
  · simp [crossOk, cross_grounding_values, scanAll, scanDomsOf,
      get_dim0_of_dom, getActiveDoms, idxOf', dictInsert, mapExcept,
      crossOne, expandLoop, permute]
  · simp [crossOuts, cross_grounding_values, scanAll, scanDomsOf,
      get_dim0_of_dom, getActiveDoms, idxOf', dictInsert, dictGet, mapExcept,
      crossOne, expandLoop, permute, unsqueeze, repeatInterleave, insertAt]
    constructor
    · simp only [← List.getD_eq_getElem?_getD]
      rw [range'_map_getD (n :: cs) 0 cs.length 1 (by rw [List.length_cons]; omega)]
      simp
    · simp only [← List.getD_eq_getElem?_getD]
      rw [range'_map_getD (n :: ds) 0 ds.length 1 (by rw [List.length_cons]; omega)]
      simp
  · rw [List.all_eq_true]
    intro j hj
    rw [List.all_eq_true]
    intro idx hidx
    have hlen := allIdx_length cs idx hidx
    simp only [beq_iff_eq]
    simp [crossOuts, cross_grounding_values, scanAll, scanDomsOf,
      get_dim0_of_dom, getActiveDoms, idxOf', dictInsert, dictGet, mapExcept,
      crossOne, expandLoop, permute, unsqueeze, repeatInterleave, insertAt,
      eraseAt]
    have h1 : ∀ d ∈ List.range (cs.length + 1),
        (j :: idx)[if 0 = d then 0
          else idxOf' (List.range' 1 cs.length) d + 1]?.getD 0 =
        (j :: idx).getD d 0 := by
      intro d hd
      rw [List.mem_range] at hd
      by_cases h0 : 0 = d
      · subst h0
        simp [← List.getD_eq_getElem?_getD]
      · have hd1 : 1 ≤ d := by omega
        rw [if_neg h0, idxOf'_range' cs.length 1 d hd1 (by omega)]
        rw [← List.getD_eq_getElem?_getD]
        congr 1
        omega
    rw [List.map_congr_left h1]
    rw [List.range_eq_range']
    rw [range'_map_getD (j :: idx) 0 (cs.length + 1) 0 (by simp [hlen])]
    simp

/-- Witness for C5: a `(2,)`-shaped constant tiled against a variable
with 3 individuals becomes `(3, 2)` with all rows equal to the
constant. -/
theorem cross_constant_variable_tiles_witness :
    crossOk [c0, vy0] false = true ∧
    (crossOuts [c0, vy0] false).map Tensor.shape = [[3, 2], [3]] ∧
    (List.range 3).all (fun j =>
      (allIdx c0.shape).all (fun idx =>
        ((crossOuts [c0, vy0] false).headD dummyTensor).data (j :: idx) ==
          c0.data idx)) = true :=
  cross_constant_variable_tiles c0 vy0 "y" 3 [] rfl rfl rfl

/-- C1: `Predicate.forward` called on a list of groundings never
returns: before the wrapped model is invoked, the leftover debug
statement `print(inputs.shape)` evaluates `.shape` on a Python list and
raises `AttributeError` (and if any input lacks `active_doms` the
broadcasting step raises even earlier). The documented cross-product
behaviour is therefore unreachable for multi-input predicates. -/
theorem forward_list_input_never_returns (model : PredInput → Tensor)
    (ts : List Tensor) : forwardOk model (.several ts) = false := by
  unfold forwardOk Predicate_forward
  cases hc : cross_grounding_values ts true with
  | error e => simp [hc]
  | ok r => simp [hc, forwardRest, pyShapeAttr]

/-- C10: on a list input, `Predicate.forward` never consults the wrapped
model at all — the result is identical for any two models, because the
`AttributeError` from `print(inputs.shape)` is raised before the model
call on line 226. -/
theorem forward_list_input_model_irrelevant (m1 m2 : PredInput → Tensor)
    (ts : List Tensor) :
    Predicate_forward m1 (.several ts) = Predicate_forward m2 (.several ts) := by
  unfold Predicate_forward
  cases hc : cross_grounding_values ts true with
  | error e => simp [hc]
  | ok r => simp [hc, forwardRest, pyShapeAttr]

/-- Shifting the start of the index range by one matches a shifted loop
body pointwise. -/
theorem flatMap_range'_shift (f g : Nat → List Layer) :
    ∀ (n s : Nat), (∀ i, s ≤ i → i < s + n → f (i + 1) = g i) →
      (List.range' (s + 1) n).flatMap f = (List.range' s n).flatMap g := by
  intro n
  induction n with
  | zero => intro s _; rfl
  | succ n ih =>
    intro s h
    rw [List.range'_succ (s + 1) n 1, List.range'_succ s n 1]
    simp only [List.flatMap_cons]
    rw [h s (Nat.le_refl s) (by omega)]
    rw [ih (s + 1) (fun i h1 h2 => h i (by omega) (by omega))]

/-- Dropping the head dimension shifts the loop body of `Predicate.MLP`
by one index. -/
theorem mlpBody_shift (a : Nat) (l : List Nat) (i : Nat) (h1 : 1 ≤ i) :
    mlpBody (a :: l) (i + 1) = mlpBody l i := by
  obtain ⟨k, rfl⟩ : ∃ k, i = k + 1 := ⟨i - 1, by omega⟩
  unfold mlpBody
  simp only [Nat.add_sub_cancel, List.getD_cons_succ, List.length_cons]
  congr 1
  exact if_congr (by omega) rfl rfl

/-- The loop of `Predicate.MLP` builds exactly the architecture the
claim describes. -/
theorem Predicate_MLP_layers_eq (dims : List Nat) :
    Predicate_MLP_layers dims = mlpSpecLayers dims := by
  induction dims with
  | nil => rfl
  | cons a rest ih =>
    cases rest with
    | nil => rfl
    | cons b rest2 =>
      have ihl : (List.range' 1 rest2.length).flatMap (mlpBody (b :: rest2)) =
          mlpSpecLayers (b :: rest2) := by
        have h0 := ih
        unfold Predicate_MLP_layers at h0
        simp only [List.length_cons, Nat.add_sub_cancel] at h0
        exact h0
      unfold Predicate_MLP_layers
      have hlen : (a :: b :: rest2).length - 1 = rest2.length + 1 := by simp
      rw [hlen, List.range'_succ 1 rest2.length 1, List.flatMap_cons]
      rw [flatMap_range'_shift (mlpBody (a :: b :: rest2)) (mlpBody (b :: rest2))
        rest2.length 1 (fun i hi _ => mlpBody_shift a (b :: rest2) i hi)]
      rw [ihl]
      cases rest2 with
      | nil => rfl
      | cons c rest3 =>
        have hcond : (1 : Nat) ≠ (a :: b :: c :: rest3).length - 1 := by
          simp only [List.length_cons]
          omega
        show mlpBody (a :: b :: c :: rest3) 1 ++ mlpSpecAux b (c :: rest3) =
          mlpSpecLayers (a :: b :: c :: rest3)
        unfold mlpBody
        rw [if_pos hcond]
        rfl

/-- C8: `Predicate.Lambda(fn)` stores the (spec-modelled) `LambdaModel`
wrapping of `fn`, which registers no trainable parameters; and
`Predicate.MLP(layer_dims)` stores a `Sequential` with one `Linear` per
consecutive pair of layer widths, an `ELU` after every hidden `Linear`
and a `Sigmoid` after the last. -/
theorem predicate_constructors_spec :
    (∀ fn : PredInput → Tensor,
       (Predicate_Lambda fn).model = LtnModel.lambdaModel fn ∧
       LtnModel.hasTrainableParams (Predicate_Lambda fn).model = false) ∧
    (∀ dims : List Nat,
       (Predicate_MLP dims).model = .sequential (mlpSpecLayers dims)) := by
  constructor
  · intro fn
    exact ⟨rfl, rfl⟩
  · intro dims
    simp [Predicate_MLP, Predicate_MLP_layers_eq]

/-- The expansion loop only moves the allocation counter forward. -/
theorem expandLoopA_counter_le (d : DomDict) :
    ∀ (missing : List String) (g : PTensor) (dsIn : List String) (c : Nat),
      c ≤ (expandLoopA d missing g dsIn c).2.2 := by
  intro missing
  induction missing with
  | nil => intro g dsIn c; exact Nat.le_refl c
  | cons newDom rest ih =>
    intro g dsIn c
    exact Nat.le_trans (by omega : c ≤ c + 2) (ih _ _ (c + 2))

/-- Every id `crossOneA` writes to or returns was allocated at or after
the entry counter, and the counter never moves backwards. -/
theorem crossOneA_facts (d : DomDict) (doms : List String) (b : Bool)
    (g : PTensor) (c : Nat) (r : PTensor × List Nat × Nat)
    (h : crossOneA d doms b g c = .ok r) :
    c ≤ r.2.2 ∧ (∀ w ∈ r.2.1, c ≤ w) ∧ c ≤ r.1.oid := by
  obtain ⟨ro, rws, rc⟩ := r
  dsimp only
  unfold crossOneA at h
  cases hg : getActiveDoms g.val with
  | error e => rw [hg] at h; exact absurd h (by simp)
  | ok dsIn =>
    rw [hg] at h
    have hc1 := expandLoopA_counter_le d
      (doms.filter (fun x => !(dsIn.contains x))) g dsIn c
    cases b with
    | true =>
      simp only [if_true, Except.ok.injEq, Prod.mk.injEq] at h
      obtain ⟨h1, h2, h3⟩ := h
      subst h1 h2 h3
      refine ⟨by omega, ?_, by dsimp only; omega⟩
      intro w hw
      rw [List.mem_singleton] at hw
      subst hw
      omega
    | false =>
      simp only [Bool.false_eq_true, if_false, Except.ok.injEq, Prod.mk.injEq] at h
      obtain ⟨h1, h2, h3⟩ := h
      subst h1 h2 h3
      refine ⟨by omega, ?_, by dsimp only; omega⟩
      intro w hw
      rw [List.mem_singleton] at hw
      subst hw
      omega

/-- Lemma: `crossAllA` writes and returns only ids allocated during the call. -/
theorem crossAllA_facts (d : DomDict) (doms : List String) (b : Bool) :
    ∀ (gs : List PTensor) (c : Nat) (r : List PTensor × List Nat × Nat),
      crossAllA d doms b gs c = .ok r →
      c ≤ r.2.2 ∧ (∀ w ∈ r.2.1, c ≤ w) ∧ (∀ o ∈ r.1, c ≤ o.oid) := by
  intro gs
  induction gs with
  | nil =>
    intro c r h
    simp only [crossAllA, Except.ok.injEq] at h
    subst h
    refine ⟨Nat.le_refl c, ?_, ?_⟩ <;> simp
  | cons g gs ih =>
    intro c r h
    unfold crossAllA at h
    cases h1 : crossOneA d doms b g c with
    | error e => rw [h1] at h; exact absurd h (by simp)
    | ok r1 =>
      rw [h1] at h
      dsimp only at h
      cases h2 : crossAllA d doms b gs r1.2.2 with
      | error e => rw [h2] at h; exact absurd h (by simp)
      | ok r2 =>
        rw [h2] at h
        simp only [Except.ok.injEq] at h
        subst h
        dsimp only
        obtain ⟨ha, hb, hc⟩ := crossOneA_facts d doms b g c r1 h1
        obtain ⟨ha2, hb2, hc2⟩ := ih r1.2.2 r2 h2
        refine ⟨by omega, ?_, ?_⟩
        · intro w hw
          rcases List.mem_append.mp hw with hw | hw
          · exact hb w hw
          · exact Nat.le_trans ha (hb2 w hw)
        · intro o ho
          rcases List.mem_cons.mp ho with rfl | ho
          · exact hc
          · exact Nat.le_trans ha (hc2 o ho)

/-- C9: `cross_grounding_values` never mutates its inputs and returns
only fresh objects. With every input object id below the allocation
counter, the only in-place write of the call (the `active_doms`
attribute assignment) hits none of the input objects — so their data,
shape and attributes are untouched — and every returned tensor is an
object distinct from every input. -/
theorem cross_never_mutates_inputs (gs : List PTensor) (b : Bool) (c0 : Nat)
    (h : ∀ g ∈ gs, g.oid < c0) :
    (crossAWrites gs b c0).all
      (fun w => gs.all (fun g => decide (g.oid ≠ w))) = true ∧
    (crossAOutIds gs b c0).all
      (fun o => gs.all (fun g => decide (g.oid ≠ o))) = true := by
  unfold crossAWrites crossAOutIds cross_grounding_valuesA
  cases hs : scanAll [] (gs.map PTensor.val) with
  | error e => simp [hs]
  | ok d =>
    cases hm : crossAllA d (d.map Prod.fst) b gs c0 with
    | error e => simp [hs, hm]
    | ok r =>
      obtain ⟨_, hw, ho⟩ := crossAllA_facts d (d.map Prod.fst) b gs c0 r hm
      dsimp only
      rw [hm]
      dsimp only
      constructor
      · rw [List.all_eq_true]
        intro w hwmem
        rw [List.all_eq_true]
        intro g hg
        rw [decide_eq_true_eq]
        have h1 := h g hg
        have h2 := hw w hwmem
        omega
      · rw [List.all_eq_true]
        intro o homem
        rw [List.all_eq_true]
        intro g hg
        rw [decide_eq_true_eq]
        obtain ⟨pt, hpt, rfl⟩ := List.mem_map.mp homem
        have h1 := h g hg
        have h2 := ho pt hpt
        omega

/-- Witness for C9 at a concrete input: one grounding object with id 0,
counter 1. -/
theorem cross_never_mutates_inputs_witness :
    (crossAWrites [p0] true 1).all
      (fun w => [p0].all (fun g => decide (g.oid ≠ w))) = true ∧
    (crossAOutIds [p0] true 1).all
      (fun o => [p0].all (fun g => decide (g.oid ≠ o))) = true :=
  cross_never_mutates_inputs [p0] true 1 (by decide)

end LTNCore
